import Mathlib

/-!
Verification of the real-time suggestion pipeline of the `email_copilot`
browser extension. The definitions below are a shallow embedding of the
JavaScript in `src/content/contentScript.js` (classes
`RealTimeSuggestionEngine`, `RealTimeGhostRenderer`,
`RealTimeInputProcessor` and the helpers `sanitizeText`,
`hasTextSelection`, `getTextAndCursor`) and of
`src/background/background.js` (`getAICompletion`, `cleanCompletion`).
Strings are modelled as `List Char`; each regex-based replacement is
modelled by a structurally recursive scanner (carrying the pending
character) with the same semantics as the global regex replace.
-/

namespace EmailCopilot

/-- JavaScript whitespace class `\s` (the characters relevant here:
space, tab, newline, carriage return, vertical tab, form feed). -/
def isWs (c : Char) : Bool :=
  c == ' ' || c == '\t' || c == '\n' || c == '\r' || c == '\x0b' || c == '\x0c'

/-- JavaScript `String.prototype.trim`: drop leading and trailing whitespace. -/
def jsTrim (l : List Char) : List Char :=
  ((l.dropWhile isWs).reverse.dropWhile isWs).reverse

/-- Scanner for `replace(/\r\n/g, '\n')`; `a` is the pending character. -/
def replCRLFAux (a : Char) : List Char → List Char
  | [] => [a]
  | b :: rest =>
    if a = '\r' ∧ b = '\n' then
      '\n' :: (match rest with
        | [] => []
        | c :: rs => replCRLFAux c rs)
    else a :: replCRLFAux b rest

/-- `text.replace(/\r\n/g, '\n')`. -/
def replCRLF : List Char → List Char
  | [] => []
  | a :: rest => replCRLFAux a rest

/-- `text.replace(/\r/g, '\n')`. -/
def replCR (l : List Char) : List Char :=
  l.map (fun c => if c = '\r' then '\n' else c)

/-- Scanner for `replace(/\n{3,}/g, '\n\n')`; `a, b` are the two pending
characters. -/
def collapseNl3Aux (a b : Char) : List Char → List Char
  | [] => [a, b]
  | c :: rest =>
    if a = '\n' ∧ b = '\n' ∧ c = '\n' then collapseNl3Aux '\n' '\n' rest
    else a :: collapseNl3Aux b c rest

/-- `text.replace(/\n{3,}/g, '\n\n')`: every maximal run of three or more
newlines becomes exactly two newlines. -/
def collapseNl3 : List Char → List Char
  | [] => []
  | [a] => [a]
  | a :: b :: rest => collapseNl3Aux a b rest

/-- Scanner for `replace(/\s{2,}/g, ' ')`; `a` is the pending character. -/
def collapseWs2Aux (a : Char) : List Char → List Char
  | [] => [a]
  | b :: rest =>
    if isWs a ∧ isWs b then collapseWs2Aux ' ' rest
    else a :: collapseWs2Aux b rest

/-- `text.replace(/\s{2,}/g, ' ')`: every maximal run of two or more
whitespace characters becomes a single space; a lone whitespace character
is left unchanged. -/
def collapseWs2 : List Char → List Char
  | [] => []
  | a :: rest => collapseWs2Aux a rest

/-- `sanitizeText` from `contentScript.js`: trim, normalize CR/LF, collapse
newline runs of length at least 3, collapse whitespace runs of length at
least 2, then `slice(0, 300)`. (The `!text` guard returns the empty string
for the empty string, which coincides with this definition.) -/
def sanitizeText (l : List Char) : List Char :=
  (collapseWs2 (collapseNl3 (replCR (replCRLF (jsTrim l))))).take 300

/-- Scanner for `replace(/\n+/g, ' ')`; `a` is the pending character. -/
def collapseNlPlusAux (a : Char) : List Char → List Char
  | [] => if a = '\n' then [' '] else [a]
  | b :: rest =>
    if a = '\n' ∧ b = '\n' then collapseNlPlusAux '\n' rest
    else if a = '\n' then ' ' :: collapseNlPlusAux b rest
    else a :: collapseNlPlusAux b rest

/-- `text.replace(/\n+/g, ' ')`: every maximal run of newlines becomes a
single space. -/
def collapseNlPlus : List Char → List Char
  | [] => []
  | a :: rest => collapseNlPlusAux a rest

/-- Scanner for `replace(/\s+/g, ' ')`; `a` is the pending character. -/
def collapseWsPlusAux (a : Char) : List Char → List Char
  | [] => if isWs a then [' '] else [a]
  | b :: rest =>
    if isWs a ∧ isWs b then collapseWsPlusAux ' ' rest
    else if isWs a then ' ' :: collapseWsPlusAux b rest
    else a :: collapseWsPlusAux b rest

/-- `text.replace(/\s+/g, ' ')`: every maximal run of whitespace becomes a
single space. -/
def collapseWsPlus : List Char → List Char
  | [] => []
  | a :: rest => collapseWsPlusAux a rest

/-- Case-insensitive prefix match, as performed by the regex
`/^(Completion:|Response:)/i`. -/
def matchesCI (pat : List Char) (l : List Char) : Bool :=
  (l.take pat.length).map Char.toLower == pat

/-- `text.replace(/^(Completion:|Response:)/i, '')`: strip one leading
case-insensitive `Completion:` or `Response:` echo. -/
def stripEcho (l : List Char) : List Char :=
  if matchesCI ("completion:".toList) l then l.drop 11
  else if matchesCI ("response:".toList) l then l.drop 9
  else l

/-- `cleanCompletion` from `background.js`: trim, strip a leading
`Completion:`/`Response:` echo, collapse newline runs to a space,
collapse whitespace runs to a space, trim again. -/
def cleanCompletion (l : List Char) : List Char :=
  jsTrim (collapseWsPlus (collapseNlPlus (stripEcho (jsTrim l))))

/-- The result objects produced by the suggestion engine and the background
worker (`{success, suggestion?, error?}`); a missing field is the empty
string. -/
structure SuggestionResult where
  success : Bool
  suggestion : List Char := []
  error : List Char := []
deriving DecidableEq, Repr

/-- The response object delivered by `chrome.runtime.sendMessage` for a
`get_ai_completion` message (`{success, suggestion?, error?}`); `none`
models a null/undefined response. -/
structure RuntimeResponse where
  success : Bool
  suggestion : List Char := []
  error : List Char := []
deriving DecidableEq, Repr

/-- Behaviour of the single `chrome.runtime.sendMessage` round-trip inside
`makeApiRequest`: the promise either resolves with a response object or
rejects with an error message. -/
inductive ProviderOutcome where
  | resolved (response : Option RuntimeResponse)
  | rejected (message : List Char)
deriving DecidableEq, Repr

/-- `this.cacheSize = 100` in the `RealTimeSuggestionEngine` constructor. -/
def cacheSize : Nat := 100

/-- `this.minRequestInterval = 150` in the engine constructor. -/
def minRequestInterval : Nat := 150

/-- `getCacheKey(text, context)`: the last 50 characters of `text`
(`text.slice(-50)`), a `|` separator and the context, lowercased. -/
def getCacheKey (text ctx : List Char) : List Char :=
  ((text.drop (text.length - 50)) ++ '|' :: ctx).map Char.toLower

/-- The keys of a JS `Map` modelled as an insertion-ordered association
list. -/
def mapKeys (m : List (List Char × SuggestionResult)) : List (List Char) :=
  m.map Prod.fst

/-- JS `Map.get`/`Map.has`: the value of the first (and, by `mapSet`
construction, only) entry with the given key. -/
def mapGet (m : List (List Char × SuggestionResult)) (k : List Char) :
    Option SuggestionResult :=
  match m with
  | [] => none
  | p :: t => if p.1 = k then some p.2 else mapGet t k

/-- JS `Map.set`: update the value in place when the key is present
(keeping its position), else append a new entry. -/
def mapSet (m : List (List Char × SuggestionResult)) (k : List Char)
    (r : SuggestionResult) : List (List Char × SuggestionResult) :=
  if (mapGet m k).isSome then
    m.map (fun p => if p.1 = k then (k, r) else p)
  else m ++ [(k, r)]

/-- The eviction step of `addToCache`: when the cache is at capacity,
delete the entry of `this.cache.keys().next().value`, the first-inserted
key. -/
def evictOldest (m : List (List Char × SuggestionResult)) :
    List (List Char × SuggestionResult) :=
  if cacheSize ≤ m.length then
    match m.head? with
    | some p => m.eraseP (fun q => decide (q.1 = p.1))
    | none => m
  else m

/-- `addToCache(key, result)`: evict the first-inserted entry when at
capacity, then `Map.set`. -/
def addToCache (m : List (List Char × SuggestionResult)) (k : List Char)
    (r : SuggestionResult) : List (List Char × SuggestionResult) :=
  mapSet (evictOldest m) k r

/-- The mutable state of a `RealTimeSuggestionEngine` (the
`activeRequests` bookkeeping only matters for overlapping asynchronous
calls and does not alter the result of a single sequential call, so it is
not part of the state). -/
structure EngineState where
  cache : List (List Char × SuggestionResult) := []
  lastRequestTime : Nat := 0
deriving DecidableEq, Repr

/-- `makeApiRequest` for a single call that is not cancelled by a
concurrent one: resolve or reject exactly as the code does on the
`sendMessage` outcome. `Except.error` models a rejected promise, which
`getSuggestion` turns into `{success:false, error:message}`. -/
def makeApiRequest : ProviderOutcome → Except (List Char) SuggestionResult
  | .resolved response =>
    match response with
    | some r =>
      if r.success then
        let s := sanitizeText r.suggestion
        if 0 < s.length then .ok { success := true, suggestion := s }
        else .ok { success := false, error := "Empty suggestion".toList }
      else
        .ok { success := false,
              error := if r.error = [] then "API request failed".toList else r.error }
    | none => .ok { success := false, error := "API request failed".toList }
  | .rejected msg => .error msg

/-- The outcome of one `getSuggestion` call: the returned
`SuggestionResult`, the engine state afterwards, and the number of
provider round-trips (`chrome.runtime.sendMessage` calls) performed. -/
structure CallResult where
  result : SuggestionResult
  state : EngineState
  providerCalls : Nat
deriving DecidableEq, Repr

/-- `getSuggestion(text, context)` invoked at time `now` (`Date.now()`),
with the provider behaving as `outcome`: cache lookup, throttle check,
dispatch, and caching of successful non-empty results. -/
def getSuggestion (st : EngineState) (now : Nat) (text ctx : List Char)
    (outcome : ProviderOutcome) : CallResult :=
  let cacheKey := getCacheKey text ctx
  match mapGet st.cache cacheKey with
  | some r => ⟨r, st, 0⟩
  | none =>
    if now - st.lastRequestTime < minRequestInterval then
      ⟨{ success := false, error := "Rate limited".toList }, st, 0⟩
    else
      let st1 : EngineState := { st with lastRequestTime := now }
      match makeApiRequest outcome with
      | .ok result =>
        if result.success = true ∧ result.suggestion ≠ [] then
          ⟨result, { st1 with cache := addToCache st1.cache cacheKey result }, 1⟩
        else ⟨result, st1, 1⟩
      | .error msg => ⟨{ success := false, error := msg }, st1, 1⟩

/-- `getAICompletion` in `background.js`: a single call to the
vendor-specific completion function, which either returns raw completion
text (cleaned by `cleanCompletion` before being wrapped) or throws. The
second component counts vendor calls; the `try/catch` makes exactly one. -/
def getAICompletion (vendor : Except (List Char) (List Char)) :
    SuggestionResult × Nat :=
  match vendor with
  | .ok raw => ({ success := true, suggestion := cleanCompletion raw }, 1)
  | .error msg => ({ success := false, error := msg }, 1)

/-- The text-context object returned by `getTextAndCursor` (without the
DOM range). -/
structure TextInfo where
  fullText : List Char := []
  textBeforeCursor : List Char := []
  textAfterCursor : List Char := []
  cursorOffset : Nat := 0
deriving DecidableEq, Repr

/-- `/[.!?]\s*$/.test(text)`: the text ends in terminal punctuation
followed only by whitespace. -/
def endsPunct (text : List Char) : Bool :=
  match text.reverse.dropWhile isWs with
  | c :: _ => c == '.' || c == '!' || c == '?'
  | [] => false

/-- Scanner counting maximal non-whitespace runs; `prevWs` records whether
the previous character was whitespace. -/
def countWordsAux (prevWs : Bool) : List Char → Nat
  | [] => 0
  | c :: rest =>
    if isWs c then countWordsAux true rest
    else (if prevWs then 1 else 0) + countWordsAux false rest

/-- `text.trim().split(/\s+/).length`: JS splits the empty string into
`[""]` (length 1); otherwise the trimmed text splits into its
whitespace-delimited words. -/
def splitWsLen (text : List Char) : Nat :=
  if jsTrim text = [] then 1 else countWordsAux true (jsTrim text)

/-- `RealTimeInputProcessor.shouldTriggerSuggestion(text, textInfo)` with
the two instance fields it reads passed explicitly; the guards appear in
the source's order. -/
def shouldTriggerSuggestion (text : List Char) (textInfo : TextInfo)
    (lastProcessedText : List Char) (isProcessing : Bool) : Bool :=
  if text.length < 8 then false
  else if text = lastProcessedText then false
  else if 0 < (jsTrim textInfo.textAfterCursor).length then false
  else if endsPunct text then false
  else if isProcessing then false
  else if splitWsLen text < 2 then false
  else true

/-- The show decision inside `RealTimeInputProcessor.makeApiCall`: after
the engine result arrives, the ghost is shown iff the processor was not
already busy, `getTextAndCursor` on the active element still yields a
context whose `textBeforeCursor` equals the text the request was issued
for, the element is still `document.activeElement`, and the result is a
successful non-empty suggestion. -/
def makeApiCallShows (isProcessing : Bool) (text : List Char)
    (result : SuggestionResult) (currentTextInfo : Option TextInfo)
    (elementFocused : Bool) : Bool :=
  if isProcessing then false
  else
    match currentTextInfo with
    | some cti =>
      if cti.textBeforeCursor = text ∧ elementFocused = true then
        if result.success = true ∧ result.suggestion ≠ [] then true else false
      else false
    | none => false

/-- The parts of the page state read by `hasTextSelection`,
`getTextAndCursor` and `triggerManualSuggestion`: whether the processor
has an active element, and the current selection (`none` when
`selection.rangeCount === 0`, otherwise whether the range is collapsed
together with the text context extracted from it). -/
structure PageState where
  activeElementPresent : Bool
  selection : Option (Bool × TextInfo)
deriving DecidableEq, Repr

/-- `hasTextSelection()`: `rangeCount > 0 && !collapsed`. -/
def hasTextSelection (p : PageState) : Bool :=
  match p.selection with
  | some (collapsed, _) => !collapsed
  | none => false

/-- `getTextAndCursor(element)` at page level: `null` when there is no
selection range, else the extracted text context. -/
def pageTextAndCursor (p : PageState) : Option TextInfo :=
  p.selection.map Prod.snd

/-- `triggerManualSuggestion()`: whether the call dispatches a completion
request, i.e. reaches the body of `makeApiCall` (whose only guard is
`isProcessing`). The source bails out when there is no active element,
when `getTextAndCursor` returns null, or when `textBeforeCursor` is
shorter than 3 characters — and on nothing else. -/
def triggerManualIssuesRequest (p : PageState) (isProcessing : Bool) : Bool :=
  if p.activeElementPresent = false then false
  else
    match pageTextAndCursor p with
    | none => false
    | some ti =>
      if ti.textBeforeCursor.length < 3 then false
      else if isProcessing then false
      else true

/-- State of a `RealTimeGhostRenderer` together with the ghost nodes
actually present in the surface's DOM and the surface's committed text;
`nextId` allocates fresh DOM node identities. -/
structure RendererState where
  activeGhost : Option Nat := none
  currentSuggestion : List Char := []
  ghostNodes : List Nat := []
  realText : List Char := []
  nextId : Nat := 0
deriving DecidableEq, Repr

/-- `hideSuggestion()`: remove the tracked ghost node from the DOM (a
no-op when there is none) and clear the renderer fields (`cleanup`). -/
def hideSuggestion (s : RendererState) : RendererState :=
  let s1 :=
    match s.activeGhost with
    | some g => { s with ghostNodes := s.ghostNodes.erase g }
    | none => s
  { s1 with activeGhost := none, currentSuggestion := [] }

/-- `showSuggestion(element, suggestion, insertPosition)`: fail without
side effects when an argument is missing/empty; otherwise hide any
existing ghost first, then insert one fresh ghost node at the cursor.
Returns whether a ghost was shown. -/
def showSuggestion (s : RendererState) (elementPresent : Bool)
    (suggestion : List Char) (insertPosPresent : Bool) :
    Bool × RendererState :=
  if elementPresent = false ∨ suggestion = [] ∨ insertPosPresent = false then
    (false, s)
  else
    let s1 := hideSuggestion s
    let g := s1.nextId
    (true, { s1 with activeGhost := some g, currentSuggestion := suggestion,
                     ghostNodes := s1.ghostNodes ++ [g], nextId := g + 1 })

/-- `acceptSuggestion()`: replace the ghost node by a real text node
(modelled as removing the ghost and appending its text to the surface's
committed text), then clear the renderer fields. Returns whether a
suggestion was accepted. -/
def acceptSuggestion (s : RendererState) : Bool × RendererState :=
  match s.activeGhost with
  | some g =>
    if s.currentSuggestion = [] then (false, s)
    else
      (true, { s with ghostNodes := s.ghostNodes.erase g,
                      realText := s.realText ++ s.currentSuggestion,
                      activeGhost := none, currentSuggestion := [] })
  | none => (false, s)

/-- One user-visible renderer call. -/
inductive GhostOp where
  | showCall (elementPresent : Bool) (suggestion : List Char)
      (insertPosPresent : Bool)
  | hideCall
  | acceptCall
deriving DecidableEq, Repr

/-- Apply one renderer call, discarding the returned boolean. -/
def applyGhostOp (s : RendererState) : GhostOp → RendererState
  | .showCall e sug p => (showSuggestion s e sug p).2
  | .hideCall => hideSuggestion s
  | .acceptCall => (acceptSuggestion s).2

/-- Run a sequence of renderer calls from a state. -/
def runGhostOps (s : RendererState) : List GhostOp → RendererState
  | [] => s
  | op :: rest => runGhostOps (applyGhostOp s op) rest

/-- The freshly constructed renderer attached to a surface with no ghost
nodes. -/
def initialRenderer : RendererState := {}

/-- No two adjacent whitespace characters: the shape left by the
whitespace-run collapsing replacements. -/
def noAdjacentWs (l : List Char) : Prop :=
  List.Chain' (fun a b => ¬(isWs a = true ∧ isWs b = true)) l

/-- Representation invariant tying the renderer's bookkeeping to the DOM:
the ghost nodes present are exactly the tracked one, and every present
ghost id was allocated. -/
def ghostInv (s : RendererState) : Prop :=
  s.ghostNodes = s.activeGhost.toList ∧ ∀ g ∈ s.ghostNodes, g < s.nextId

/-- Insert a list of keys into an initially empty cache through
`addToCache` (the value stored is irrelevant to the eviction behaviour). -/
def fillCache (ks : List (List Char)) : List (List Char × SuggestionResult) :=
  ks.foldl (fun m k => addToCache m k { success := true }) []

/-! ## Claim C1: staleness guard -/

/-- Claim C1: Staleness guard: when a completion response arrives,
`makeApiCall` shows the suggestion only if the current live
`textBeforeCursor` still equals the exact text the request was issued for
and the element is still focused; in particular, when the request was
issued for `"Hello how are"` and the live text has become
`"Hello how are you doing"`, the stale suggestion is not shown. -/
theorem C1_staleness_guard :
    (∀ (isProc : Bool) (text : List Char) (r : SuggestionResult)
        (cti : Option TextInfo) (focused : Bool),
      makeApiCallShows isProc text r cti focused = true →
      (∃ ti, cti = some ti ∧ ti.textBeforeCursor = text) ∧ focused = true) ∧
    makeApiCallShows false ("Hello how are".toList)
      { success := true, suggestion := " you doing".toList }
      (some { textBeforeCursor := "Hello how are you doing".toList }) true
      = false := by
  constructor
  · intro isProc text r cti focused h
    unfold makeApiCallShows at h
    split at h
    · exact absurd h (by simp)
    · cases cti with
      | none => exact absurd h (by simp)
      | some ti =>
        simp only [] at h
        split at h
        · next hcond => exact ⟨⟨ti, rfl, hcond.1⟩, hcond.2⟩
        · exact absurd h (by simp)
  · decide

/-- Witness for C1: a fresh, focused response is shown, and the theorem
yields the freshness facts for it. -/
theorem C1_staleness_guard_witness :
    (∃ ti, (some { textBeforeCursor := "Hello how are".toList } :
        Option TextInfo) = some ti ∧
      ti.textBeforeCursor = "Hello how are".toList) ∧ true = true :=
  C1_staleness_guard.1 false ("Hello how are".toList)
    { success := true, suggestion := " you doing".toList }
    (some { textBeforeCursor := "Hello how are".toList }) true (by decide)

/-! ## Claim C2: no retry loop -/

/-- Claim C2, counterexample: The claim says a dispatch against a provider
that always fails with a transient network error resolves after exactly
the configured retry count (three attempts per the spec). In the code a
failing dispatch performs exactly one provider round-trip — there is no
retry loop — so the count is 1, not 3; `getAICompletion` in the
background worker likewise makes a single vendor call. -/
theorem C2_retry_counterexample :
    (getSuggestion {} 1000 ("Hello there friend".toList) []
        (.rejected ("network error".toList))).result.success = false ∧
    (getSuggestion {} 1000 ("Hello there friend".toList) []
        (.rejected ("network error".toList))).providerCalls = 1 ∧
    ¬((getSuggestion {} 1000 ("Hello there friend".toList) []
        (.rejected ("network error".toList))).providerCalls = 3) ∧
    (getAICompletion (.error ("network error".toList))).2 = 1 := by
  decide

/-- Claim C2, amended: A dispatch to the completion provider that fails with
a transient network error resolves to a failure result after exactly one
attempt — every `getSuggestion` call performs at most one provider
round-trip, so no error class (network, authentication or configuration)
is ever retried — and the background worker's `getAICompletion` likewise
makes exactly one vendor call and resolves failures to a failure result. -/
theorem C2_no_retry_single_attempt :
    (∀ (st : EngineState) (now : Nat) (text ctx : List Char)
        (o : ProviderOutcome),
      (getSuggestion st now text ctx o).providerCalls ≤ 1) ∧
    (∀ (st : EngineState) (now : Nat) (text ctx msg : List Char),
      mapGet st.cache (getCacheKey text ctx) = none →
      minRequestInterval ≤ now - st.lastRequestTime →
      (getSuggestion st now text ctx (.rejected msg)).result.success = false ∧
      (getSuggestion st now text ctx (.rejected msg)).providerCalls = 1) ∧
    (∀ msg : List Char,
      (getAICompletion (.error msg)).1.success = false ∧
      (getAICompletion (.error msg)).2 = 1) := by
  refine ⟨?_, ?_, ?_⟩
  · intro st now text ctx o
    simp only [getSuggestion]
    split
    · simp
    · split
      · simp
      · split
        · split <;> simp
        · simp
  · intro st now text ctx msg h1 h2
    simp only [getSuggestion, h1, makeApiRequest]
    rw [if_neg (Nat.not_lt.mpr h2)]
    exact ⟨rfl, rfl⟩
  · intro msg
    exact ⟨rfl, rfl⟩

/-- Witness for C2 (amended): a concrete failing dispatch from a fresh
engine resolves to failure with exactly one provider call. -/
theorem C2_no_retry_single_attempt_witness :
    (getSuggestion {} 1000 ("Hello there friend".toList) []
        (.rejected ("network error".toList))).result.success = false ∧
    (getSuggestion {} 1000 ("Hello there friend".toList) []
        (.rejected ("network error".toList))).providerCalls = 1 :=
  C2_no_retry_single_attempt.2.1 {} 1000 ("Hello there friend".toList) []
    ("network error".toList) (by decide) (by decide)

/-! ## Claim C5: rate limiting -/

/-- Claim C5: For a `getSuggestion` call whose key is not cached, if fewer
than `minRequestInterval` (150) milliseconds have elapsed since the last
dispatched request, the call returns the synthetic rate-limited failure
immediately: the state is unchanged (nothing is queued) and no provider
call is made. -/
theorem C5_rate_limited (st : EngineState) (now : Nat)
    (text ctx : List Char) (o : ProviderOutcome)
    (hmiss : mapGet st.cache (getCacheKey text ctx) = none)
    (hfast : now - st.lastRequestTime < minRequestInterval) :
    getSuggestion st now text ctx o =
      ⟨{ success := false, error := "Rate limited".toList }, st, 0⟩ := by
  simp only [getSuggestion, hmiss]
  rw [if_pos hfast]

/-- Witness for C5: a second call 100ms after engine construction is
rate-limited. -/
theorem C5_rate_limited_witness :
    getSuggestion {} 100 ("Hello there friend".toList) []
        (.resolved (some { success := true, suggestion := "ok then".toList })) =
      ⟨{ success := false, error := "Rate limited".toList }, {}, 0⟩ :=
  C5_rate_limited {} 100 ("Hello there friend".toList) []
    (.resolved (some { success := true, suggestion := "ok then".toList }))
    (by decide) (by decide)

/-! ## Claim C6: short-text suppression (length is not trimmed) -/

/-- Claim C6, counterexample: The claim says the trigger is suppressed
whenever the *trimmed* length of `textBeforeCursor` is below the
threshold. The code compares the untrimmed length against 8: the text
`"ab cd   "` has untrimmed length 8 but trimmed length 5 (below every
recommended threshold), and the trigger fires. -/
theorem C6_trimmed_length_counterexample :
    shouldTriggerSuggestion ("ab cd   ".toList)
        { textBeforeCursor := "ab cd   ".toList } ("x".toList) false = true ∧
    (jsTrim ("ab cd   ".toList)).length = 5 ∧ 5 < 8 := by
  decide

/-- Claim C6, amended: For every context, `shouldTriggerSuggestion` returns
false when the untrimmed length of `textBeforeCursor` is below the
minimum threshold of 8 characters. -/
theorem C6_short_text_suppression (text : List Char) (ti : TextInfo)
    (lp : List Char) (proc : Bool) (hshort : text.length < 8) :
    shouldTriggerSuggestion text ti lp proc = false := by
  unfold shouldTriggerSuggestion
  rw [if_pos hshort]

/-- Witness for C6 (amended): `"short"` does not trigger. -/
theorem C6_short_text_suppression_witness :
    shouldTriggerSuggestion ("short".toList) {} [] false = false :=
  C6_short_text_suppression ("short".toList) {} [] false (by decide)

/-! ## Claim C7: manual trigger does not check the selection -/

/-- Claim C7, counterexample: The claim says the manual-trigger path still
refuses when the user's selection is non-empty. With an active element, a
non-collapsed selection (so `hasTextSelection()` is true) and a
determinate context of at least 3 characters, `triggerManualSuggestion`
issues the request anyway. -/
theorem C7_selection_counterexample :
    triggerManualIssuesRequest
        { activeElementPresent := true,
          selection := some (false, { textBeforeCursor := "Hello world".toList }) }
        false = true ∧
    hasTextSelection
        { activeElementPresent := true,
          selection := some (false, { textBeforeCursor := "Hello world".toList }) }
        = true := by
  decide

/-- Claim C7, amended: The manual-trigger path bypasses the
length/punctuation/duplicate checks and refuses only when there is no
active element, when the extracted context is indeterminate
(`getTextAndCursor` returns null), or when `textBeforeCursor` is shorter
than 3 characters; it performs no selection check. -/
theorem C7_manual_trigger_refusals (p : PageState) (proc : Bool) :
    (pageTextAndCursor p = none → triggerManualIssuesRequest p proc = false) ∧
    (p.activeElementPresent = false →
      triggerManualIssuesRequest p proc = false) ∧
    (∀ ti, pageTextAndCursor p = some ti → ti.textBeforeCursor.length < 3 →
      triggerManualIssuesRequest p proc = false) ∧
    (∀ ti, p.activeElementPresent = true → pageTextAndCursor p = some ti →
      3 ≤ ti.textBeforeCursor.length → proc = false →
      triggerManualIssuesRequest p proc = true) := by
  refine ⟨?_, ?_, ?_, ?_⟩
  · intro h
    unfold triggerManualIssuesRequest
    rw [h]
    split <;> rfl
  · intro h
    unfold triggerManualIssuesRequest
    rw [if_pos h]
  · intro ti hti hlen
    unfold triggerManualIssuesRequest
    rw [hti]
    split
    · rfl
    · simp only [if_pos hlen]
  · intro ti hact hti hlen hproc
    unfold triggerManualIssuesRequest
    rw [hti, hact, hproc]
    simp only [Bool.true_eq_false, if_false]
    rw [if_neg (by omega)]
    rfl

/-- Witness for C7 (amended): an indeterminate context refuses. -/
theorem C7_manual_trigger_refusals_witness :
    triggerManualIssuesRequest
        { activeElementPresent := true, selection := none } false = false :=
  (C7_manual_trigger_refusals
    { activeElementPresent := true, selection := none } false).1 (by decide)

/-! ## Map lemmas for the suggestion cache -/

theorem mapGet_map_replace (m : List (List Char × SuggestionResult))
    (k : List Char) (r : SuggestionResult) (h : (mapGet m k).isSome) :
    mapGet (m.map (fun p => if p.1 = k then (k, r) else p)) k = some r := by
  induction m with
  | nil => simp [mapGet] at h
  | cons p t ih =>
    by_cases hk : p.1 = k
    · simp [mapGet, hk]
    · simp only [List.map_cons, if_neg hk, mapGet]
      apply ih
      simpa [mapGet, if_neg hk] using h

theorem mapGet_append_self (m : List (List Char × SuggestionResult))
    (k : List Char) (r : SuggestionResult) (h : mapGet m k = none) :
    mapGet (m ++ [(k, r)]) k = some r := by
  induction m with
  | nil => simp [mapGet]
  | cons p t ih =>
    simp only [mapGet] at h
    by_cases hk : p.1 = k
    · rw [if_pos hk] at h
      exact absurd h (by simp)
    · rw [if_neg hk] at h
      simp only [List.cons_append, mapGet, if_neg hk]
      exact ih h

theorem mapGet_mapSet_self (m : List (List Char × SuggestionResult))
    (k : List Char) (r : SuggestionResult) :
    mapGet (mapSet m k r) k = some r := by
  unfold mapSet
  split
  · next h => exact mapGet_map_replace m k r h
  · next h => exact mapGet_append_self m k r (Option.not_isSome_iff_eq_none.mp h)

theorem mapGet_addToCache_self (m : List (List Char × SuggestionResult))
    (k : List Char) (r : SuggestionResult) :
    mapGet (addToCache m k r) k = some r :=
  mapGet_mapSet_self (evictOldest m) k r

theorem mapGet_eq_none_iff (m : List (List Char × SuggestionResult))
    (k : List Char) : mapGet m k = none ↔ k ∉ mapKeys m := by
  induction m with
  | nil => simp [mapGet, mapKeys]
  | cons p t ih =>
    simp only [mapGet, mapKeys, List.map_cons, List.mem_cons]
    by_cases hk : p.1 = k
    · rw [if_pos hk]
      constructor
      · intro h
        exact absurd h (by simp)
      · intro h
        exact absurd (Or.inl hk.symm) h
    · rw [if_neg hk]
      rw [show (mapGet t k = none) ↔ k ∉ mapKeys t from ih]
      constructor
      · intro h hor
        cases hor with
        | inl heq => exact hk heq.symm
        | inr hmem => exact h hmem
      · intro h hmem
        exact h (Or.inr hmem)

theorem mapSet_fresh (m : List (List Char × SuggestionResult))
    (k : List Char) (r : SuggestionResult) (h : mapGet m k = none) :
    mapSet m k r = m ++ [(k, r)] := by
  unfold mapSet
  rw [h]
  rfl

theorem mapSet_length_le (m : List (List Char × SuggestionResult))
    (k : List Char) (r : SuggestionResult) :
    (mapSet m k r).length ≤ m.length + 1 := by
  unfold mapSet
  by_cases h : (mapGet m k).isSome
  · rw [if_pos h, List.length_map]
    exact Nat.le_succ _
  · rw [if_neg h, List.length_append, List.length_singleton]

theorem evictOldest_cons_of_full (p : List Char × SuggestionResult)
    (t : List (List Char × SuggestionResult))
    (h : cacheSize ≤ (p :: t).length) : evictOldest (p :: t) = t := by
  unfold evictOldest
  rw [if_pos h]
  simp only [List.head?_cons]
  simp [List.eraseP_cons]

theorem evictOldest_of_small (m : List (List Char × SuggestionResult))
    (h : m.length < cacheSize) : evictOldest m = m := by
  unfold evictOldest
  rw [if_neg (Nat.not_le.mpr h)]

/-! ## Engine lemmas -/

theorem makeApiRequest_ok_nonempty (o : ProviderOutcome)
    (r : SuggestionResult) (h : makeApiRequest o = .ok r)
    (hs : r.success = true) : r.suggestion ≠ [] := by
  cases o with
  | rejected msg => simp [makeApiRequest] at h
  | resolved resp =>
    cases resp with
    | none =>
      simp only [makeApiRequest, Except.ok.injEq] at h
      rw [← h] at hs
      simp at hs
    | some rr =>
      simp only [makeApiRequest] at h
      split at h
      · split at h
        · next hlen =>
          simp only [Except.ok.injEq] at h
          rw [← h]
          simp only []
          intro hempty
          rw [hempty] at hlen
          simp at hlen
        · simp only [Except.ok.injEq] at h
          rw [← h] at hs
          simp at hs
      · simp only [Except.ok.injEq] at h
        rw [← h] at hs
        simp at hs

theorem getSuggestion_cached (st : EngineState) (now : Nat)
    (text ctx : List Char) (o : ProviderOutcome) (r : SuggestionResult)
    (h : mapGet st.cache (getCacheKey text ctx) = some r) :
    getSuggestion st now text ctx o = ⟨r, st, 0⟩ := by
  simp only [getSuggestion, h]

theorem getSuggestion_success_caches (st : EngineState) (now : Nat)
    (text ctx : List Char) (o : ProviderOutcome)
    (h : (getSuggestion st now text ctx o).result.success = true) :
    mapGet (getSuggestion st now text ctx o).state.cache
        (getCacheKey text ctx) =
      some (getSuggestion st now text ctx o).result := by
  cases hl : mapGet st.cache (getCacheKey text ctx) with
  | some r =>
    rw [getSuggestion_cached st now text ctx o r hl]
    exact hl
  | none =>
    simp only [getSuggestion, hl] at h ⊢
    by_cases hrl : now - st.lastRequestTime < minRequestInterval
    · rw [if_pos hrl] at h
      simp at h
    · rw [if_neg hrl] at h ⊢
      cases hmk : makeApiRequest o with
      | ok result =>
        simp only [hmk] at h ⊢
        by_cases hcond : result.success = true ∧ result.suggestion ≠ []
        · rw [if_pos hcond] at h ⊢
          exact mapGet_addToCache_self _ _ _
        · rw [if_neg hcond] at h
          exact absurd ⟨h, makeApiRequest_ok_nonempty o result hmk h⟩ hcond
      | error msg =>
        simp only [hmk] at h
        simp at h

/-! ## Claim C3: cache round-trip -/

/-- Claim C3: When a `getSuggestion` call returns a successful result (the
only kind the engine caches), a second call with the same `(text,
context)` pair against the resulting state — with no intervening eviction
— returns the identical cached result, leaves the state untouched, and
performs zero provider calls. -/
theorem C3_cache_round_trip (st : EngineState) (now now2 : Nat)
    (text ctx : List Char) (o o2 : ProviderOutcome)
    (hsuccess : (getSuggestion st now text ctx o).result.success = true) :
    getSuggestion (getSuggestion st now text ctx o).state now2 text ctx o2 =
      ⟨(getSuggestion st now text ctx o).result,
       (getSuggestion st now text ctx o).state, 0⟩ :=
  getSuggestion_cached _ _ _ _ _ _
    (getSuggestion_success_caches st now text ctx o hsuccess)

/-- Witness for C3: a concrete successful call followed by a repeat call
that is served from the cache with no provider round-trip. -/
theorem C3_cache_round_trip_witness :
    getSuggestion
        (getSuggestion {} 1000 ("Hello there".toList) []
          (.resolved (some { success := true,
                             suggestion := " nice to meet you".toList }))).state
        1200 ("Hello there".toList) [] (.rejected ("offline".toList)) =
      ⟨(getSuggestion {} 1000 ("Hello there".toList) []
          (.resolved (some { success := true,
                             suggestion := " nice to meet you".toList }))).result,
       (getSuggestion {} 1000 ("Hello there".toList) []
          (.resolved (some { success := true,
                             suggestion := " nice to meet you".toList }))).state,
       0⟩ :=
  C3_cache_round_trip {} 1000 1200 ("Hello there".toList) []
    (.resolved (some { success := true,
                       suggestion := " nice to meet you".toList }))
    (.rejected ("offline".toList)) (by decide)

/-! ## Claim C4: bounded cache with oldest-first eviction -/

theorem addToCache_length_le (m : List (List Char × SuggestionResult))
    (k : List Char) (r : SuggestionResult) (h : m.length ≤ cacheSize) :
    (addToCache m k r).length ≤ cacheSize := by
  unfold addToCache
  by_cases hfull : cacheSize ≤ m.length
  · have hpos : 1 ≤ cacheSize := by decide
    cases m with
    | nil =>
      simp only [List.length_nil] at hfull
      omega
    | cons p t =>
      rw [evictOldest_cons_of_full p t hfull]
      have hle := mapSet_length_le t k r
      simp only [List.length_cons] at h
      omega
  · rw [evictOldest_of_small m (Nat.not_le.mp hfull)]
    have hle := mapSet_length_le m k r
    omega

theorem addToCache_at_capacity (m : List (List Char × SuggestionResult))
    (k : List Char) (r : SuggestionResult) (hfull : cacheSize ≤ m.length)
    (hfresh : k ∉ mapKeys m) :
    addToCache m k r = m.tail ++ [(k, r)] ∧
      (addToCache m k r).length = m.length := by
  cases m with
  | nil =>
    exact absurd hfull (by decide)
  | cons p t =>
    unfold addToCache
    rw [evictOldest_cons_of_full p t hfull]
    have hfresh' : k ∉ mapKeys t :=
      fun hmem => hfresh (List.mem_cons_of_mem _ hmem)
    rw [mapSet_fresh t k r ((mapGet_eq_none_iff t k).mpr hfresh')]
    refine ⟨rfl, ?_⟩
    simp

theorem fillCache_keys (ks : List (List Char)) (hnd : ks.Nodup) :
    mapKeys (fillCache ks) = ks.drop (ks.length - cacheSize) := by
  induction ks using List.reverseRecOn with
  | nil => simp [fillCache, mapKeys]
  | append_singleton xs x ih =>
    rw [List.nodup_append] at hnd
    obtain ⟨hxs, -, hdisj⟩ := hnd
    have hx : x ∉ xs := fun hmem => hdisj hmem (List.mem_singleton_self x)
    have hstep : fillCache (xs ++ [x]) =
        addToCache (fillCache xs) x { success := true } := by
      unfold fillCache
      rw [List.foldl_append]
      rfl
    have hk := ih hxs
    have hmlen : (fillCache xs).length = xs.length - (xs.length - cacheSize) := by
      have hcongr := congrArg List.length hk
      simpa [mapKeys] using hcongr
    have hpos : 1 ≤ cacheSize := by decide
    by_cases hsmall : xs.length < cacheSize
    · have hd : xs.length - cacheSize = 0 := by omega
      rw [hd, List.drop_zero] at hk
      have hdrop : (xs ++ [x]).length - cacheSize = 0 := by
        simp only [List.length_append, List.length_singleton]
        omega
      rw [hstep, hdrop, List.drop_zero]
      unfold addToCache
      rw [evictOldest_of_small (fillCache xs) (by omega)]
      rw [mapSet_fresh _ _ _ ((mapGet_eq_none_iff _ _).mpr
        (by rw [hk]; exact hx))]
      simp only [mapKeys, List.map_append, List.map_cons, List.map_nil]
      rw [show List.map Prod.fst (fillCache xs) = mapKeys (fillCache xs) from rfl, hk]
    · have hbig : cacheSize ≤ xs.length := Nat.not_lt.mp hsmall
      have hmlen2 : (fillCache xs).length = cacheSize := by omega
      cases hm : fillCache xs with
      | nil =>
        rw [hm] at hmlen2
        simp only [List.length_nil] at hmlen2
        omega
      | cons p t =>
        rw [hstep, hm]
        unfold addToCache
        rw [evictOldest_cons_of_full p t (by rw [← hm]; omega)]
        have htail : mapKeys t = xs.drop (xs.length - cacheSize + 1) := by
          have hcongr := congrArg List.tail hk
          rw [hm] at hcongr
          simpa [mapKeys, List.tail_drop] using hcongr
        have hxt : x ∉ mapKeys t := by
          rw [htail]
          exact fun hmem => hx (List.mem_of_mem_drop hmem)
        rw [mapSet_fresh t x _ ((mapGet_eq_none_iff t x).mpr hxt)]
        have hidx : (xs ++ [x]).length - cacheSize =
            xs.length - cacheSize + 1 := by
          simp only [List.length_append, List.length_singleton]
          omega
        rw [hidx]
        rw [List.drop_append_of_le_length (by omega)]
        simp only [mapKeys, List.map_append, List.map_cons, List.map_nil]
        rw [show List.map Prod.fst t = mapKeys t from rfl, htail]

/-- Claim C4: The suggestion cache is bounded with oldest-first eviction:
(1) `addToCache` never grows the cache beyond `cacheSize` entries;
(2) an insertion of a fresh key into a cache at (or above) capacity evicts
exactly the first-inserted entry, leaving the entry count unchanged;
(3) inserting `cacheSize + 1` distinct keys into an empty cache leaves
exactly `cacheSize` entries, whose keys are all but the first-inserted
key; in particular the first-inserted key is absent. -/
theorem C4_bounded_cache_fifo :
    (∀ (m : List (List Char × SuggestionResult)) (k : List Char)
        (r : SuggestionResult),
      m.length ≤ cacheSize → (addToCache m k r).length ≤ cacheSize) ∧
    (∀ (m : List (List Char × SuggestionResult)) (k : List Char)
        (r : SuggestionResult),
      cacheSize ≤ m.length → k ∉ mapKeys m →
      addToCache m k r = m.tail ++ [(k, r)] ∧
        (addToCache m k r).length = m.length) ∧
    (∀ ks : List (List Char), ks.Nodup → ks.length = cacheSize + 1 →
      (fillCache ks).length = cacheSize ∧
      mapKeys (fillCache ks) = ks.tail ∧
      ∀ k0, ks.head? = some k0 → k0 ∉ mapKeys (fillCache ks)) := by
  refine ⟨addToCache_length_le, addToCache_at_capacity, ?_⟩
  intro ks hnd hlen
  have hkeys := fillCache_keys ks hnd
  rw [hlen] at hkeys
  have hone : cacheSize + 1 - cacheSize = 1 := by omega
  rw [hone, List.drop_one] at hkeys
  refine ⟨?_, hkeys, ?_⟩
  · have hcongr := congrArg List.length hkeys
    simp only [mapKeys, List.length_map] at hcongr
    rw [hcongr, List.length_tail, hlen]
    omega
  · intro k0 hk0
    rw [hkeys]
    cases ks with
    | nil => simp at hk0
    | cons a t =>
      simp only [List.head?_cons, Option.some.injEq] at hk0
      simp only [List.tail_cons]
      rw [← hk0]
      exact (List.nodup_cons.mp hnd).1

/-- Witness for C4: 101 pairwise-distinct keys (of pairwise different
lengths) fill the cache to exactly 100 entries with the first key
evicted. -/
theorem C4_bounded_cache_fifo_witness :
    ((List.range (cacheSize + 1)).map
        (fun i => List.replicate i 'a')).Nodup ∧
    ((List.range (cacheSize + 1)).map
        (fun i => List.replicate i 'a')).length = cacheSize + 1 ∧
    (fillCache ((List.range (cacheSize + 1)).map
        (fun i => List.replicate i 'a'))).length = cacheSize := by
  have hinj : Function.Injective (fun i : Nat => List.replicate i 'a') := by
    intro i j hij
    have := congrArg List.length hij
    simpa using this
  have hnd : ((List.range (cacheSize + 1)).map
      (fun i => List.replicate i 'a')).Nodup :=
    (List.nodup_range _).map hinj
  have hlen : ((List.range (cacheSize + 1)).map
      (fun i => List.replicate i 'a')).length = cacheSize + 1 := by
    simp
  exact ⟨hnd, hlen, (C4_bounded_cache_fifo.2.2 _ hnd hlen).1⟩

/-! ## Claim C10: cursor-at-end gating -/

theorem mem_dropWhile_of_neg (p : Char → Bool) (c : Char) (l : List Char)
    (hc : c ∈ l) (hp : p c = false) : c ∈ l.dropWhile p := by
  induction l with
  | nil => simp at hc
  | cons a t ih =>
    by_cases ha : p a = true
    · rw [List.dropWhile_cons_of_pos ha]
      rcases List.mem_cons.mp hc with heq | hmem
      · rw [heq] at hp
        exact absurd ha (by simp [hp])
      · exact ih hmem
    · rw [List.dropWhile_cons_of_neg ha]
      exact hc

theorem jsTrim_ne_nil_of_mem (l : List Char) (c : Char) (hc : c ∈ l)
    (hw : isWs c = false) : jsTrim l ≠ [] := by
  unfold jsTrim
  have h1 : c ∈ l.dropWhile isWs := mem_dropWhile_of_neg _ _ _ hc hw
  have h2 : c ∈ (l.dropWhile isWs).reverse := List.mem_reverse.mpr h1
  have h3 : c ∈ (l.dropWhile isWs).reverse.dropWhile isWs :=
    mem_dropWhile_of_neg _ _ _ h2 hw
  exact List.ne_nil_of_mem (List.mem_reverse.mpr h3)

/-- Claim C10: The automatic trigger decision returns false whenever the
text after the cursor contains any non-whitespace character, so automatic
suggestions fire only when the cursor is at the whitespace-trimmed end of
the composed text. -/
theorem C10_cursor_at_end_gating (text : List Char) (ti : TextInfo)
    (lp : List Char) (proc : Bool) (c : Char)
    (hc : c ∈ ti.textAfterCursor) (hw : isWs c = false) :
    shouldTriggerSuggestion text ti lp proc = false := by
  unfold shouldTriggerSuggestion
  by_cases h1 : text.length < 8
  · rw [if_pos h1]
  · rw [if_neg h1]
    by_cases h2 : text = lp
    · rw [if_pos h2]
    · rw [if_neg h2]
      rw [if_pos (List.length_pos.mpr
        (jsTrim_ne_nil_of_mem ti.textAfterCursor c hc hw))]

/-- Witness for C10: typing in the middle (non-whitespace after the
cursor) does not auto-trigger. -/
theorem C10_cursor_at_end_gating_witness :
    shouldTriggerSuggestion ("Hello how are".toList)
      { textBeforeCursor := "Hello how are".toList,
        textAfterCursor := " you".toList } [] false = false :=
  C10_cursor_at_end_gating ("Hello how are".toList)
    { textBeforeCursor := "Hello how are".toList,
      textAfterCursor := " you".toList } [] false 'y'
    (by decide) (by decide)

/-! ## Claim C8: at-most-one ghost node -/

theorem ghostInv_initial : ghostInv initialRenderer := by
  constructor
  · rfl
  · intro g hg
    simp [initialRenderer] at hg

theorem hideSuggestion_nextId (s : RendererState) :
    (hideSuggestion s).nextId = s.nextId := by
  unfold hideSuggestion
  cases s.activeGhost <;> rfl

theorem hideSuggestion_empty (s : RendererState) (h : ghostInv s) :
    (hideSuggestion s).ghostNodes = [] := by
  obtain ⟨hrep, -⟩ := h
  unfold hideSuggestion
  cases hg : s.activeGhost with
  | none =>
    rw [hg] at hrep
    simpa using hrep
  | some g =>
    rw [hg] at hrep
    simp only [hrep]
    simp [List.erase_cons]

theorem ghostInv_hide (s : RendererState) (h : ghostInv s) :
    ghostInv (hideSuggestion s) := by
  refine ⟨?_, ?_⟩
  · rw [hideSuggestion_empty s h]
    unfold hideSuggestion
    cases s.activeGhost <;> rfl
  · intro g hg
    rw [hideSuggestion_empty s h] at hg
    simp at hg

theorem ghostInv_show (s : RendererState) (e : Bool) (sug : List Char)
    (ip : Bool) (h : ghostInv s) :
    ghostInv (showSuggestion s e sug ip).2 := by
  unfold showSuggestion
  by_cases hcond : e = false ∨ sug = [] ∨ ip = false
  · rw [if_pos hcond]
    exact h
  · rw [if_neg hcond]
    refine ⟨?_, ?_⟩
    · simp only [hideSuggestion_empty s h]
      rfl
    · intro g hg
      simp only [hideSuggestion_empty s h, List.nil_append,
        List.mem_singleton] at hg
      simp [hg]

theorem ghostInv_accept (s : RendererState) (h : ghostInv s) :
    ghostInv (acceptSuggestion s).2 := by
  obtain ⟨hrep, halloc⟩ := h
  unfold acceptSuggestion
  cases hg : s.activeGhost with
  | none => exact ⟨hrep.trans (by rw [hg]), halloc⟩
  | some g =>
    dsimp only
    by_cases hemp : s.currentSuggestion = []
    · rw [if_pos hemp]
      exact ⟨hrep, halloc⟩
    · rw [if_neg hemp]
      refine ⟨?_, ?_⟩
      · rw [hg] at hrep
        simp only [hrep]
        simp [List.erase_cons]
      · intro g2 hg2
        rw [hg] at hrep
        simp only [hrep] at hg2
        simp [List.erase_cons] at hg2

theorem ghostInv_applyOp (s : RendererState) (op : GhostOp)
    (h : ghostInv s) : ghostInv (applyGhostOp s op) := by
  cases op with
  | showCall e sug ip => exact ghostInv_show s e sug ip h
  | hideCall => exact ghostInv_hide s h
  | acceptCall => exact ghostInv_accept s h

theorem ghostInv_run (s : RendererState) (ops : List GhostOp)
    (h : ghostInv s) : ghostInv (runGhostOps s ops) := by
  induction ops generalizing s with
  | nil => exact h
  | cons op rest ih => exact ih _ (ghostInv_applyOp s op h)

theorem ghostCount_le_one (s : RendererState) (h : ghostInv s) :
    s.ghostNodes.length ≤ 1 := by
  rw [h.1]
  cases s.activeGhost <;> simp [Option.toList]

/-- Claim C8: At-most-one-ghost invariant: for any sequence of
show/hide/accept calls on one surface starting from a fresh renderer,
after each call there are 0 or 1 ghost nodes present; moreover a
successful `show` leaves exactly the freshly inserted ghost node — any
previously shown ghost has been removed first. -/
theorem C8_at_most_one_ghost :
    (∀ ops : List GhostOp,
      (runGhostOps initialRenderer ops).ghostNodes.length ≤ 1) ∧
    (∀ (s : RendererState) (e : Bool) (sug : List Char) (ip : Bool),
      ghostInv s → (showSuggestion s e sug ip).1 = true →
      (showSuggestion s e sug ip).2.ghostNodes = [s.nextId] ∧
      ∀ g, s.activeGhost = some g →
        g ∉ (showSuggestion s e sug ip).2.ghostNodes) := by
  constructor
  · intro ops
    exact ghostCount_le_one _ (ghostInv_run initialRenderer ops ghostInv_initial)
  · intro s e sug ip h hs
    unfold showSuggestion at hs ⊢
    by_cases hcond : e = false ∨ sug = [] ∨ ip = false
    · rw [if_pos hcond] at hs
      simp at hs
    · rw [if_neg hcond]
      have hempty := hideSuggestion_empty s h
      have hnid := hideSuggestion_nextId s
      refine ⟨?_, ?_⟩
      · simp only [hempty, hnid, List.nil_append]
      · intro g hg hmem
        simp only [hempty, hnid, List.nil_append, List.mem_singleton] at hmem
        have hlt : g < s.nextId := h.2 g (by rw [h.1, hg]; simp)
        omega

/-- Witness for C8: showing over an existing ghost from an
invariant-respecting state yields exactly the new ghost node, the old one
having been removed. -/
theorem C8_at_most_one_ghost_witness :
    (showSuggestion
        { activeGhost := some 0, currentSuggestion := "hi".toList,
          ghostNodes := [0], realText := [], nextId := 1 }
        true ("ok then".toList) true).2.ghostNodes = [1] ∧
    ∀ g, (some 0 : Option Nat) = some g →
      g ∉ (showSuggestion
        { activeGhost := some 0, currentSuggestion := "hi".toList,
          ghostNodes := [0], realText := [], nextId := 1 }
        true ("ok then".toList) true).2.ghostNodes :=
  C8_at_most_one_ghost.2
    { activeGhost := some 0, currentSuggestion := "hi".toList,
      ghostNodes := [0], realText := [], nextId := 1 }
    true ("ok then".toList) true ⟨by decide, by decide⟩ (by decide)

/-! ## Claim C9: output sanitization -/

theorem collapseWs2Aux_head (b : Char) (rs : List Char)
    (hb : isWs b = false) : (collapseWs2Aux b rs).head? = some b := by
  cases rs with
  | nil => rfl
  | cons c rs' =>
    unfold collapseWs2Aux
    rw [if_neg (by simp [hb])]
    rfl

theorem noAdjacentWs_collapseWs2Aux (rs : List Char) :
    ∀ a : Char, noAdjacentWs (collapseWs2Aux a rs) := by
  induction rs with
  | nil =>
    intro a
    exact List.chain'_singleton a
  | cons b rs' ih =>
    intro a
    unfold collapseWs2Aux
    by_cases hab : isWs a = true ∧ isWs b = true
    · rw [if_pos hab]
      exact ih ' '
    · rw [if_neg hab]
      refine List.chain'_cons'.mpr ⟨?_, ih b⟩
      intro y hy hcontra
      by_cases ha : isWs a = true
      · have hb : isWs b = false := by
          cases hw : isWs b with
          | false => rfl
          | true => exact absurd ⟨ha, hw⟩ hab
        rw [collapseWs2Aux_head b rs' hb] at hy
        simp only [Option.mem_def, Option.some.injEq] at hy
        rw [hy] at hb
        rw [hcontra.2] at hb
        exact absurd hb (by simp)
      · exact ha hcontra.1

theorem noAdjacentWs_collapseWs2 (l : List Char) :
    noAdjacentWs (collapseWs2 l) := by
  cases l with
  | nil => exact List.chain'_nil
  | cons a rest => exact noAdjacentWs_collapseWs2Aux rest a

theorem collapseWsPlusAux_head (b : Char) (rs : List Char)
    (hb : isWs b = false) : (collapseWsPlusAux b rs).head? = some b := by
  cases rs with
  | nil =>
    unfold collapseWsPlusAux
    rw [if_neg (by simp [hb])]
    rfl
  | cons c rs' =>
    unfold collapseWsPlusAux
    rw [if_neg (by simp [hb]), if_neg (by simp [hb])]
    rfl

theorem noAdjacentWs_collapseWsPlusAux (rs : List Char) :
    ∀ a : Char, noAdjacentWs (collapseWsPlusAux a rs) := by
  induction rs with
  | nil =>
    intro a
    unfold collapseWsPlusAux
    split
    · exact List.chain'_singleton ' '
    · exact List.chain'_singleton a
  | cons b rs' ih =>
    intro a
    unfold collapseWsPlusAux
    by_cases hab : isWs a = true ∧ isWs b = true
    · rw [if_pos hab]
      exact ih ' '
    · rw [if_neg hab]
      by_cases ha : isWs a = true
      · have hb : isWs b = false := by
          cases hw : isWs b with
          | false => rfl
          | true => exact absurd ⟨ha, hw⟩ hab
        rw [if_pos ha]
        refine List.chain'_cons'.mpr ⟨?_, ih b⟩
        intro y hy hcontra
        rw [collapseWsPlusAux_head b rs' hb] at hy
        simp only [Option.mem_def, Option.some.injEq] at hy
        rw [hy] at hb
        rw [hcontra.2] at hb
        exact absurd hb (by simp)
      · rw [if_neg ha]
        refine List.chain'_cons'.mpr ⟨?_, ih b⟩
        intro y hy hcontra
        exact ha hcontra.1

theorem noAdjacentWs_collapseWsPlus (l : List Char) :
    noAdjacentWs (collapseWsPlus l) := by
  cases l with
  | nil => exact List.chain'_nil
  | cons a rest => exact noAdjacentWs_collapseWsPlusAux rest a

theorem jsTrim_within (l : List Char) : jsTrim l <:+: l := by
  unfold jsTrim
  have h1 : l.dropWhile isWs <:+ l := List.dropWhile_suffix isWs
  have h2 : (l.dropWhile isWs).reverse.dropWhile isWs <:+
      (l.dropWhile isWs).reverse := List.dropWhile_suffix isWs
  have h3 : ((l.dropWhile isWs).reverse.dropWhile isWs).reverse <+:
      l.dropWhile isWs := by
    have h4 : ((l.dropWhile isWs).reverse.dropWhile isWs).reverse <+:
        ((l.dropWhile isWs).reverse).reverse := List.reverse_prefix.mpr h2
    simpa using h4
  exact h3.isInfix.trans h1.isInfix

theorem head?_dropWhile_not (p : Char → Bool) (l : List Char) (c : Char)
    (h : (l.dropWhile p).head? = some c) : p c = false := by
  induction l with
  | nil => simp at h
  | cons a t ih =>
    by_cases ha : p a = true
    · rw [List.dropWhile_cons_of_pos ha] at h
      exact ih h
    · rw [List.dropWhile_cons_of_neg ha] at h
      simp only [List.head?_cons, Option.some.injEq] at h
      rw [← h]
      exact Bool.eq_false_iff.mpr ha

theorem prefix_preserves_head? (l1 l2 : List Char) (c : Char) (h : l1 <+: l2)
    (hc : l1.head? = some c) : l2.head? = some c := by
  obtain ⟨t, rfl⟩ := h
  cases l1 with
  | nil => simp at hc
  | cons a rest =>
    simp only [List.head?_cons, Option.some.injEq] at hc
    simp [hc]

theorem jsTrim_head_not_ws (l : List Char) (c : Char)
    (h : (jsTrim l).head? = some c) : isWs c = false := by
  have hpre : jsTrim l <+: l.dropWhile isWs := by
    have h4 : ((l.dropWhile isWs).reverse.dropWhile isWs).reverse <+:
        ((l.dropWhile isWs).reverse).reverse :=
      List.reverse_prefix.mpr (List.dropWhile_suffix isWs)
    simpa [jsTrim] using h4
  exact head?_dropWhile_not isWs l c (prefix_preserves_head? _ _ c hpre h)

theorem replCRLFAux_head (a : Char) (rs : List Char) (ha : a ≠ '\r') :
    (replCRLFAux a rs).head? = some a := by
  cases rs with
  | nil => rfl
  | cons b rs' =>
    unfold replCRLFAux
    rw [if_neg (by intro hcon; exact ha hcon.1)]
    rfl

theorem replCRLF_head (x : List Char) (a : Char) (hx : x.head? = some a)
    (ha : isWs a = false) : (replCRLF x).head? = some a := by
  cases x with
  | nil => simp at hx
  | cons a0 rest =>
    simp only [List.head?_cons, Option.some.injEq] at hx
    rw [← hx]
    exact replCRLFAux_head a0 rest
      (by rw [hx]; intro hcon; rw [hcon] at ha; exact absurd ha (by decide))

theorem replCR_head (x : List Char) (a : Char) (hx : x.head? = some a)
    (ha : isWs a = false) : (replCR x).head? = some a := by
  cases x with
  | nil => simp at hx
  | cons a0 rest =>
    simp only [List.head?_cons, Option.some.injEq] at hx
    unfold replCR
    simp only [List.map_cons, List.head?_cons, Option.some.injEq]
    rw [if_neg (by rw [hx]; intro hcon; rw [hcon] at ha; exact absurd ha (by decide))]
    exact hx

theorem collapseNl3Aux_head (a b : Char) (rs : List Char) (ha : a ≠ '\n') :
    (collapseNl3Aux a b rs).head? = some a := by
  cases rs with
  | nil => rfl
  | cons c rs' =>
    unfold collapseNl3Aux
    rw [if_neg (by intro hcon; exact ha hcon.1)]
    rfl

theorem collapseNl3_head (x : List Char) (a : Char) (hx : x.head? = some a)
    (ha : isWs a = false) : (collapseNl3 x).head? = some a := by
  have ha' : a ≠ '\n' := by
    intro hcon
    rw [hcon] at ha
    exact absurd ha (by decide)
  cases x with
  | nil => simp at hx
  | cons a0 rest =>
    simp only [List.head?_cons, Option.some.injEq] at hx
    cases rest with
    | nil => simpa [collapseNl3] using hx
    | cons b rs =>
      rw [← hx]
      exact collapseNl3Aux_head a0 b rs (by rw [hx]; exact ha')

theorem collapseWs2_head (x : List Char) (a : Char) (hx : x.head? = some a)
    (ha : isWs a = false) : (collapseWs2 x).head? = some a := by
  cases x with
  | nil => simp at hx
  | cons a0 rest =>
    simp only [List.head?_cons, Option.some.injEq] at hx
    rw [← hx]
    exact collapseWs2Aux_head a0 rest (by rw [hx]; exact ha)

theorem sanitizeText_head_not_ws (l : List Char) (c : Char)
    (h : (sanitizeText l).head? = some c) : isWs c = false := by
  unfold sanitizeText at h
  rw [List.head?_take] at h
  rw [if_neg (by decide)] at h
  cases ht : (jsTrim l).head? with
  | none =>
    rw [show jsTrim l = [] from List.head?_eq_none_iff.mp ht] at h
    simp [replCRLF, replCR, collapseNl3, collapseWs2] at h
  | some a =>
    have ha : isWs a = false := jsTrim_head_not_ws l a ht
    have h1 := replCRLF_head (jsTrim l) a ht ha
    have h2 := replCR_head _ a h1 ha
    have h3 := collapseNl3_head _ a h2 ha
    have h4 := collapseWs2_head _ a h3 ha
    rw [h4] at h
    simp only [Option.some.injEq] at h
    rw [← h]
    exact ha

theorem dropWhile_eq_self_of_head (p : Char → Bool) (l : List Char)
    (h : ∀ c, l.head? = some c → p c = false) : l.dropWhile p = l := by
  cases l with
  | nil => rfl
  | cons a t => exact List.dropWhile_cons_of_neg (by simp [h a rfl])

theorem jsTrim_idem (l : List Char) : jsTrim (jsTrim l) = jsTrim l := by
  have step1 : (jsTrim l).dropWhile isWs = jsTrim l :=
    dropWhile_eq_self_of_head isWs (jsTrim l) (jsTrim_head_not_ws l)
  have hrev : (jsTrim l).reverse = (l.dropWhile isWs).reverse.dropWhile isWs := by
    unfold jsTrim
    rw [List.reverse_reverse]
  have step2 : (jsTrim l).reverse.dropWhile isWs = (jsTrim l).reverse := by
    rw [hrev]
    exact dropWhile_eq_self_of_head isWs _
      (fun c hc => head?_dropWhile_not isWs _ c hc)
  calc jsTrim (jsTrim l)
      = (((jsTrim l).dropWhile isWs).reverse.dropWhile isWs).reverse := rfl
    _ = ((jsTrim l).reverse.dropWhile isWs).reverse := by rw [step1]
    _ = ((jsTrim l).reverse).reverse := by rw [step2]
    _ = jsTrim l := List.reverse_reverse _

theorem getSuggestion_sanitizes (st : EngineState) (now : Nat)
    (text ctx : List Char) (r : RuntimeResponse)
    (hmiss : mapGet st.cache (getCacheKey text ctx) = none)
    (hslow : minRequestInterval ≤ now - st.lastRequestTime)
    (hok : r.success = true)
    (hne : 0 < (sanitizeText r.suggestion).length) :
    (getSuggestion st now text ctx (.resolved (some r))).result =
      { success := true, suggestion := sanitizeText r.suggestion } ∧
    mapGet (getSuggestion st now text ctx (.resolved (some r))).state.cache
        (getCacheKey text ctx) =
      some { success := true, suggestion := sanitizeText r.suggestion } := by
  have hreq : makeApiRequest (.resolved (some r)) =
      .ok { success := true, suggestion := sanitizeText r.suggestion } := by
    simp only [makeApiRequest]
    rw [if_pos hok, if_pos hne]
  simp only [getSuggestion, hmiss, hreq]
  rw [if_neg (Nat.not_lt.mpr hslow)]
  rw [if_pos (by
    refine ⟨by trivial, ?_⟩
    intro hcon
    rw [hcon] at hne
    simp at hne)]
  exact ⟨rfl, mapGet_addToCache_self _ _ _⟩

/-- Claim C9: Output sanitization: every suggestion the engine caches or
returns for showing equals `sanitizeText` applied to the provider's
output (itself already passed through the background worker's
`cleanCompletion`), and the sanitizers have the advertised effect:
`sanitizeText` caps the output at 300 characters, leaves no run of two or
more whitespace characters and no leading whitespace; `cleanCompletion`
produces trimmed, run-collapsed output and strips a leading
`Completion:`-style echo. -/
theorem C9_output_sanitization :
    (∀ l : List Char, (sanitizeText l).length ≤ 300) ∧
    (∀ l : List Char, noAdjacentWs (sanitizeText l)) ∧
    (∀ (l : List Char) (c : Char),
      (sanitizeText l).head? = some c → isWs c = false) ∧
    (∀ raw : List Char, jsTrim (cleanCompletion raw) = cleanCompletion raw ∧
      noAdjacentWs (cleanCompletion raw)) ∧
    (∀ raw : List Char, matchesCI ("completion:".toList) (jsTrim raw) = true →
      cleanCompletion raw =
        jsTrim (collapseWsPlus (collapseNlPlus ((jsTrim raw).drop 11)))) ∧
    (∀ (st : EngineState) (now : Nat) (text ctx : List Char)
        (r : RuntimeResponse),
      mapGet st.cache (getCacheKey text ctx) = none →
      minRequestInterval ≤ now - st.lastRequestTime →
      r.success = true → 0 < (sanitizeText r.suggestion).length →
      (getSuggestion st now text ctx (.resolved (some r))).result =
        { success := true, suggestion := sanitizeText r.suggestion } ∧
      mapGet (getSuggestion st now text ctx (.resolved (some r))).state.cache
          (getCacheKey text ctx) =
        some { success := true, suggestion := sanitizeText r.suggestion }) := by
  refine ⟨?_, ?_, sanitizeText_head_not_ws, ?_, ?_, getSuggestion_sanitizes⟩
  · intro l
    unfold sanitizeText
    exact List.length_take_le 300 _
  · intro l
    unfold sanitizeText
    have htake := List.take_prefix 300
      (collapseWs2 (collapseNl3 (replCR (replCRLF (jsTrim l)))))
    exact List.Chain'.prefix (noAdjacentWs_collapseWs2 _) htake
  · intro raw
    constructor
    · unfold cleanCompletion
      exact jsTrim_idem _
    · unfold cleanCompletion
      exact List.Chain'.infix (noAdjacentWs_collapseWsPlus _) (jsTrim_within _)
  · intro raw h
    unfold cleanCompletion stripEcho
    rw [if_pos h]

/-- Witness for C9: a concrete provider response with echo, CRLF noise
and whitespace runs is sanitized before being cached and returned. -/
theorem C9_output_sanitization_witness :
    (getSuggestion {} 1000 ("Hello there".toList) []
        (.resolved (some { success := true,
                           suggestion := "  how are\r\n\r\nyou   today? ".toList }))).result =
      { success := true,
        suggestion := sanitizeText ("  how are\r\n\r\nyou   today? ".toList) } ∧
    mapGet (getSuggestion {} 1000 ("Hello there".toList) []
        (.resolved (some { success := true,
                           suggestion := "  how are\r\n\r\nyou   today? ".toList }))).state.cache
        (getCacheKey ("Hello there".toList) []) =
      some { success := true,
             suggestion := sanitizeText ("  how are\r\n\r\nyou   today? ".toList) } :=
  C9_output_sanitization.2.2.2.2.2 {} 1000 ("Hello there".toList) []
    { success := true, suggestion := "  how are\r\n\r\nyou   today? ".toList }
    (by decide) (by decide) (by decide) (by decide)

end EmailCopilot
